import Mathlib

/-!
Verification development for the qPCR results module
(`src/shared/data_analysis.py`): a shallow embedding of the ingestion
(`DataImporter`) and classification (`DataAnalyzer`) layers, followed by
theorems settling the specification claims.

Modelling conventions:
* Python floats are modelled by `Cell` values: finite values as rationals
  (`ℚ`), plus the IEEE special values `inf`, `neginf`, `nan`; pandas object
  cells holding text are `Cell.str`.  Comparisons and division follow IEEE
  semantics (any comparison with NaN is false, `x / 0` is `±inf` for
  `x ≠ 0` and NaN for `0 / 0`).
* A pandas `DataFrame` row is modelled either as a total function
  `String → Cell` (classifier stage, where the merged table has all of its
  columns) or as an association list `List (String × Cell)` (importer
  stage, where a missing column must be observable as an error).
* Python `s in t` on strings is substring containment (`strHas`), and
  `x in line` for a csv line is membership among the fields.
* `sorted(...)` is a comparison sort; modelled by a stable insertion sort
  (`pySorted`), which agrees with Python `sorted` as a multiset.
-/

/-! ## String helpers -/

/-- Is `n` a prefix of `h`? -/
def chPre : List Char → List Char → Bool
  | [], _ => true
  | _ :: _, [] => false
  | a :: as, b :: bs => decide (a = b) && chPre as bs

/-- Does `h` contain `n` as a contiguous sublist? -/
def chHas (n : List Char) : List Char → Bool
  | [] => n.isEmpty
  | c :: rest => chPre n (c :: rest) || chHas n rest

/-- Python `needle in hay` for strings: substring containment. -/
def strHas (hay needle : String) : Bool :=
  chHas needle.toList hay.toList

/-- The apostrophe character used by Python `str` on a list of strings. -/
def pyQuote : String := (Char.ofNat 39).toString

/-- Python `str(line)` for a csv line (a list of string fields), as produced
by `csv.reader`: the fields are shown quoted, comma-separated, in square
brackets.  (Escaping inside fields is not modelled; the tokens searched for
in the source contain no quotes or brackets.) -/
def pyStr (line : List String) : String :=
  "[" ++ String.intercalate ", " (line.map (fun s => pyQuote ++ s ++ pyQuote)) ++ "]"

/-- Python `str.strip()`: drop leading and trailing whitespace. -/
def pyStrip (s : String) : String :=
  String.mk (((s.toList.dropWhile Char.isWhitespace).reverse.dropWhile
    Char.isWhitespace).reverse)

/-- `DataImporter.isblank`: every field of the row is whitespace-only
(`all (not field.strip() for field in row)`). -/
def isblank (row : List String) : Bool :=
  row.all (fun field => decide (pyStrip field = ""))

/-! ## `DataImporter.csv_to_df` (lines 88–115) -/

/-- One iteration of the `csv_to_df` reading loop, carrying the
`data_bool` flag and the accumulated `data_cleaned` rows.  The source
order per line is: blank line turns the flag off, then append if the flag
is on, then the results flag (membership of `results_flag` among the
fields) turns it on. -/
def csvLineStep (resultsFlag : String) (st : Bool × List (List String))
    (line : List String) : Bool × List (List String) :=
  let b1 := if isblank line then false else st.1
  let acc := if b1 then st.2 ++ [line] else st.2
  let b2 := if line.any (fun f => decide (f = resultsFlag)) then true else b1
  (b2, acc)

/-- The `data_cleaned` buffer accumulated by `csv_to_df`'s loop. -/
def csvBuffered (csvFile : List (List String)) (resultsFlag : String) :
    List (List String) :=
  (csvFile.foldl (csvLineStep resultsFlag) (false, [])).2

/-- `DataImporter.csv_to_df`: pops the first buffered row as the header
(`data_cleaned.pop(0)` raises `IndexError` on an empty buffer) and returns
the header together with the remaining data rows. -/
def csv_to_df (csvFile : List (List String)) (resultsFlag : String) :
    Except String (List String × List (List String)) :=
  match csvBuffered csvFile resultsFlag with
  | [] => .error "IndexError: pop from empty list"
  | header :: rows => .ok (header, rows)

/-! ## `DataImporter.extract_header` (lines 147–177) -/

/-- One iteration of the `extract_header` loop.  Source order per line:
first the stop check (the `stop` token in `str(line)`, or a blank line when
no stop token is given) turns capturing off; then the flag check (the
`flag` token in `str(line)`) turns capturing on; finally the line is
appended if capturing is now on. -/
def headStep (flag stop : Option String) (st : Bool × List (List String))
    (line : List String) : Bool × List (List String) :=
  let b1 := match stop with
    | none => if isblank line then false else st.1
    | some s => if strHas (pyStr line) s then false else st.1
  let b2 := match flag with
    | none => b1
    | some f => if strHas (pyStr line) f then true else b1
  (b2, if b2 then st.2 ++ [line] else st.2)

/-- `DataImporter.extract_header`: capturing starts on (`True`) when no
flag is given, off otherwise; each line is processed by `headStep`. -/
def extract_header (lines : List (List String)) (flag stop : Option String) :
    List (List String) :=
  (lines.foldl (headStep flag stop) (flag.isNone, [])).2

/-! ## Pandas cell values -/

/-- A pandas cell: a finite float (as a rational), an IEEE special value,
or a text value. -/
inductive Cell where
  | num : ℚ → Cell
  | inf : Cell
  | neginf : Cell
  | nan : Cell
  | str : String → Cell
deriving DecidableEq

/-- IEEE `<` on cells: any comparison involving NaN is false.  Comparison
with a text operand never occurs in the modelled pipeline (Python would
raise `TypeError`) and is given the value false. -/
def cellLt : Cell → Cell → Bool
  | Cell.num a, Cell.num b => decide (a < b)
  | Cell.num _, Cell.inf => true
  | Cell.neginf, Cell.num _ => true
  | Cell.neginf, Cell.inf => true
  | _, _ => false

/-- IEEE `≥` on cells: any comparison involving NaN is false (note `≥` is
not the negation of `<` on floats). -/
def cellGe : Cell → Cell → Bool
  | Cell.num a, Cell.num b => decide (b ≤ a)
  | Cell.inf, Cell.num _ => true
  | Cell.inf, Cell.inf => true
  | Cell.inf, Cell.neginf => true
  | Cell.num _, Cell.neginf => true
  | Cell.neginf, Cell.neginf => true
  | _, _ => false

/-- IEEE float division as performed by pandas on numeric columns:
`x / 0` is `±inf` for `x ≠ 0` (no exception is raised) and NaN for
`0 / 0`; operands involving NaN give NaN.  Text operands never occur in
the modelled pipeline (pandas would raise) and are mapped to NaN. -/
def pdiv : Cell → Cell → Cell
  | Cell.num a, Cell.num b =>
      if b = 0 then
        (if a = 0 then Cell.nan else if 0 < a then Cell.inf else Cell.neginf)
      else Cell.num (a / b)
  | Cell.num _, Cell.inf => Cell.num 0
  | Cell.num _, Cell.neginf => Cell.num 0
  | Cell.inf, Cell.num b => if 0 ≤ b then Cell.inf else Cell.neginf
  | Cell.neginf, Cell.num b => if 0 ≤ b then Cell.neginf else Cell.inf
  | _, _ => Cell.nan

/-- Pandas `fillna(0)` on a single cell: NaN becomes 0, everything else
(including `±inf`) is left unchanged. -/
def fillna0 : Cell → Cell
  | Cell.nan => Cell.num 0
  | c => c

/-! ## Importer-stage tables: association-list rows

At the importer stage a row is an association list of column name and
cell, so that a missing column is observable (pandas `.loc` raises on a
missing column). -/

/-- A dataframe row at the importer stage. -/
abbrev ARow : Type := List (String × Cell)

/-- A dataframe at the importer stage. -/
abbrev ATable : Type := List ARow

/-- Column lookup in an association-list row (first matching entry). -/
def aGet (row : ARow) (c : String) : Option Cell :=
  (List.find? (fun p => decide (p.1 = c)) row).map Prod.snd

/-- `df.loc[:, cols]` restricted to one row: the row is re-assembled in
the order of `cols`; a missing column yields `none` (pandas raises). -/
def projRow (cols : List String) (row : ARow) : Option ARow :=
  cols.mapM (fun c => (aGet row c).map (fun v => (c, v)))

/-- `df.loc[:, cols]` on a whole table. -/
def projTable (cols : List String) (t : ATable) : Option ATable :=
  t.mapM (projRow cols)

/-- `pd.merge(l, r, on='Well')`: the inner join on the `Well` column.  For
every row of `l`, every row of `r` with an equal `Well` value contributes
one merged row (the left row followed by the right row's non-`Well`
columns).  Left rows with no match on the right are dropped, as are right
rows with no match on the left. -/
def innerJoin (l r : ATable) : ATable :=
  l.flatMap (fun rl =>
    (r.filter (fun rr => decide (aGet rr "Well" = aGet rl "Well"))).map
      (fun rr => rl ++ rr.filter (fun p => decide (p.1 ≠ "Well"))))

/-- The list of `Well` values of a table, in row order. -/
def wellKeys (t : ATable) : List (Option Cell) :=
  t.map (fun r => aGet r "Well")

/-- The column list built by `DataImporter.summarize` for one reporter:
`['Well', 'Sample Name', fluor + ' CT']`, plus `Cq Conf` and `dRn` columns
when `'QuantStudio' in machine_type`, plus a `Quantity` column when the
division is `'hiv'`; on every loop iteration but the first, index 1
(`'Sample Name'`) is popped. -/
def summarizeCols (machineType division : String) (fluor : String)
    (firstLoop : Bool) : List String :=
  let c0 := ["Well", "Sample Name", fluor ++ " CT"]
  let c1 := if strHas machineType "QuantStudio" then
      c0 ++ [fluor ++ " Cq Conf", fluor ++ " dRn"] else c0
  let c2 := if division = "hiv" then c1 ++ [fluor ++ " Quantity"] else c1
  if firstLoop then c2 else c2.eraseIdx 1

/-- The loop of `DataImporter.summarize`, carrying the summary table
(`none` before the first iteration).  The first iteration's column
selection is guarded by try/except (a missing column aborts the run with
an error dialog); later iterations select columns unguarded (a missing
column raises `KeyError`) and inner-join the selection onto the summary
table on `Well`. -/
def summarizeGo (machineType division : String) :
    List (String × ATable) → Option ATable → Except String ATable
  | [], none => .error "UnboundLocalError: summary_table"
  | [], some t => .ok t
  | (fluor, tbl) :: rest, acc =>
      match projTable (summarizeCols machineType division fluor acc.isNone) tbl with
      | none => .error (if acc.isNone then "Incorrect file selected. Please try again." else "KeyError")
      | some proj =>
          summarizeGo machineType division rest
            (some (match acc with
                   | none => proj
                   | some t => innerJoin t proj))

/-- `DataImporter.summarize` (lines 118–144): combine the per-reporter
partial tables, in reporter order, into one summary table. -/
def summarize (machineType division : String)
    (dfDict : List (String × ATable)) : Except String ATable :=
  summarizeGo machineType division dfDict none

/-! ## `DataImporter.parse_rgq` file matching (lines 371–419) -/

/-- Does a Rotor-Gene results filepath match the reporter `r` (a pair of
fluorophore name and display name)?  Source: `f'{fluor}.csv' in filepath
or f'{self.reporter_dict[fluor]}.csv' in filepath`. -/
def rgqMatches (r : String × String) (filepath : String) : Bool :=
  strHas filepath (r.1 ++ ".csv") || strHas filepath (r.2 ++ ".csv")

/-- The `used_filepaths` list accumulated by `parse_rgq`: the outer loop
runs over the selected filepaths, the inner loop over the configured
reporters, appending the filepath once per reporter it matches. -/
def rgqUsed (reporters : List (String × String)) (filepaths : List String) :
    List String :=
  filepaths.flatMap (fun p =>
    (reporters.filter (fun r => rgqMatches r p)).map (fun _ => p))

/-- Stable insertion of one element for the model of Python `sorted`. -/
def insertSorted (le : String → String → Bool) (x : String) :
    List String → List String
  | [] => [x]
  | y :: ys => if le x y then x :: y :: ys else y :: insertSorted le x ys

/-- Model of Python `sorted` on lists of strings: a stable insertion sort.
(Only the multiset of the result matters to the theorems below.) -/
def pySorted (le : String → String → Bool) (l : List String) : List String :=
  l.foldr (insertSorted le) []

/-- Lexicographic-by-code-point `≤` on strings, the order used by Python
`sorted` on `str`. -/
def strLeB (a b : String) : Bool :=
  go a.toList b.toList
where
  go : List Char → List Char → Bool
    | [], _ => true
    | _ :: _, [] => false
    | x :: xs, y :: ys => if x < y then true else if y < x then false else go xs ys

/-- The final file-identity check of `parse_rgq`:
`sorted(results_filepaths) != sorted(used_filepaths)`; when true, the run
is aborted with a fatal error dialog. -/
def rgqFileCheckFails (reporters : List (String × String))
    (filepaths : List String) : Bool :=
  decide (pySorted strLeB filepaths ≠ pySorted strLeB (rgqUsed reporters filepaths))

/-! ## `DataImporter.parse_qs` maximum-dRn computation (lines 355–362) -/

/-- One row of the QuantStudio results table, restricted to the columns
the max-dRn computation reads: the `Reporter` label, the (numeric)
`Baseline End` metric, and the (numeric) delta-Rn value. -/
structure QsRow where
  reporter : String
  baselineEnd : ℚ
  dRn : ℚ
deriving DecidableEq

/-- Lookup in the assay's reporter dictionary (fluorophore → display
name); `parse_qs` only indexes it at its own keys. -/
def dictGet (reporterDict : List (String × String)) (fluor : String) : String :=
  ((List.find? (fun p => decide (p.1 = fluor)) reporterDict).map Prod.snd).getD ""

/-- The `max_dRn_dict` entry computed by `parse_qs` for one reporter: the
threshold is 5 when the reporter's display name equals
`'Internal Control'` and 10 otherwise, and the entry is the maximum dRn
over the rows of that reporter's partial table (the rows whose `Reporter`
label is `fluor`) whose `Baseline End` is `>=` the threshold.  An empty
selection makes the pandas `max` NaN; modelled as `none`. -/
def maxDRnEntry (reporterDict : List (String × String)) (fluor : String)
    (table : List QsRow) : Option ℚ :=
  let thr : ℚ := if dictGet reporterDict fluor = "Internal Control" then 5 else 10
  let sub := table.filter (fun r => decide (r.reporter = fluor))
  ((sub.filter (fun r => decide (thr ≤ r.baselineEnd))).map QsRow.dRn).max?

/-- Modelled from the spec's words for claim C8: the MaxSignalMap entry is
the maximum delta-signal over rows whose baseline-end metric strictly
exceeds the per-reporter-role threshold, 5 when the reporter is the
internal control (the configured `ic` channel), 10 otherwise. -/
def maxDRnSpecStrict (ic fluor : String) (table : List QsRow) : Option ℚ :=
  let thr : ℚ := if fluor = ic then 5 else 10
  let sub := table.filter (fun r => decide (r.reporter = fluor))
  ((sub.filter (fun r => decide (thr < r.baselineEnd))).map QsRow.dRn).max?

/-- The amended spec-side definition for claim C8: as `maxDRnSpecStrict`,
but a row qualifies when its baseline-end metric is at least (`≥`) the
threshold. -/
def maxDRnSpecAtLeast (ic fluor : String) (table : List QsRow) : Option ℚ :=
  let thr : ℚ := if fluor = ic then 5 else 10
  let sub := table.filter (fun r => decide (r.reporter = fluor))
  ((sub.filter (fun r => decide (thr ≤ r.baselineEnd))).map QsRow.dRn).max?

/-! ## `DataAnalyzer.vhf_result` (lines 571–608)

At the classifier stage the merged table's measurement columns are all
numeric, so a row is modelled as a total function from column name to
rational value. -/

/-- Python `min` on a nonempty list, written `pyMin head tail`. -/
def pyMin (x : ℚ) (xs : List ℚ) : ℚ := xs.foldl min x

/-- Python `l.index(min(l))`: the first index holding the minimum value
(0 on the empty list, which never occurs below). -/
def pyIndexMin : List ℚ → Nat
  | [] => 0
  | x :: xs => List.findIdx (fun y => decide (y = pyMin x xs)) (x :: xs)

/-- The per-reporter positivity test of `vhf_result`: for machine types
`'QuantStudio 3'` and `'QuantStudio 5'`, Cq strictly below the positivity
cutoff and dRn divided by the plate maximum strictly above the dRn
fraction cutoff; for every other machine type, Cq strictly below the
positivity cutoff alone. -/
def vhfQualifies (machineType : String) (posCutoff dRnCutoff : ℚ)
    (maxDRn : String → ℚ) (row : String → ℚ) (f : String) : Bool :=
  if machineType = "QuantStudio 3" ∨ machineType = "QuantStudio 5" then
    decide (row (f ++ " CT") < posCutoff ∧ dRnCutoff < row (f ++ " dRn") / maxDRn f)
  else
    decide (row (f ++ " CT") < posCutoff)

/-- `DataAnalyzer.vhf_result`: the candidate list starts with the sentinel
98 at index 0 (the internal-control position); each non-control reporter,
in configured order, contributes its Cq when it qualifies as positive and
the sentinel 99 otherwise; the call is read off the first index of the
minimum. -/
def vhf_result (machineType : String) (posCutoff dRnCutoff : ℚ)
    (maxDRn : String → ℚ) (reporterDict : String → String)
    (reporterList : List String) (ic : String) (row : String → ℚ) : String :=
  let cq_vals : List ℚ :=
    [98] ++ (reporterList.drop 1).map (fun f =>
      if vhfQualifies machineType posCutoff dRnCutoff maxDRn row f then
        row (f ++ " CT")
      else 99)
  let fluorMin := pyIndexMin cq_vals
  if fluorMin ≠ 0 then
    reporterDict (reporterList.getD fluorMin "") ++ " Positive"
  else if row (ic ++ " CT") < posCutoff then "Negative"
  else "Invalid Result"

/-- Candidate-Cq construction following the words of claim C2: append, for
each non-control reporter in configured order, its Cq exactly when it is
called positive and the sentinel 99 otherwise. -/
def specCandidates (positive : String → Bool) (cqOf : String → ℚ) :
    List String → List ℚ
  | [] => []
  | f :: fs => (if positive f then cqOf f else 99) :: specCandidates positive cqOf fs

/-- The index of the minimum with ties broken by first occurrence,
following the words of claim C2: the first position whose value is less
than or equal to every element of the list. -/
def specFirstMinIdx (l : List ℚ) : Nat :=
  List.findIdx (fun x => l.all (fun y => decide (x ≤ y))) l

/-- The VHF classifier as worded by claim C2: index 0 of the candidate
list holds the sentinel 98 for the internal control; each non-control
reporter's Cq is appended in configured order exactly when that reporter
is called positive (strict `<` against the positivity cutoff, with the
delta-Rn fraction gate added for the QuantStudio machine types) and 99
otherwise; the index of the minimum is taken with ties broken by first
occurrence; a nonzero index gives `<display name> Positive`, index zero
gives `Negative` when the internal control's Cq is strictly below the
cutoff and `Invalid Result` otherwise. -/
def vhfSpec (machineType : String) (posCutoff dRnCutoff : ℚ)
    (maxDRn : String → ℚ) (reporterDict : String → String)
    (reporterList : List String) (ic : String) (row : String → ℚ) : String :=
  let cand : List ℚ :=
    98 :: specCandidates
      (fun f =>
        if machineType = "QuantStudio 3" ∨ machineType = "QuantStudio 5" then
          decide (row (f ++ " CT") < posCutoff ∧
                  dRnCutoff < row (f ++ " dRn") / maxDRn f)
        else decide (row (f ++ " CT") < posCutoff))
      (fun f => row (f ++ " CT"))
      (reporterList.drop 1)
  let k := specFirstMinIdx cand
  if k = 0 then
    (if row (ic ++ " CT") < posCutoff then "Negative" else "Invalid Result")
  else
    reporterDict (reporterList.getD k "") ++ " Positive"

/-! ## `DataAnalyzer.hiv_result` and `hiv_analysis` (lines 620–644) -/

/-- `DataAnalyzer.hiv_result`: `'Negative'` when the DRM percentage is
below the configured minimum or the internal-control quantity is below
50; otherwise `'Positive'` when the percentage is at least the configured
maximum; otherwise `'Indeterminate'`.  Comparisons are IEEE float
comparisons on the cells. -/
def hiv_result (pct icq : Cell) (minT maxT : ℚ) : String :=
  if cellLt pct (Cell.num minT) || cellLt icq (Cell.num 50) then "Negative"
  else if cellGe pct (Cell.num maxT) then "Positive"
  else "Indeterminate"

/-- A classifier-stage row of the HIV workflow: a total function from
column name to cell. -/
abbrev RRow : Type := String → Cell

/-- Overwrite (or create) one column of a row. -/
def updateCol (row : RRow) (name : String) (v : Cell) : RRow :=
  fun c => if c = name then v else row c

/-- One iteration of the `hiv_analysis` loop, restricted to a single row
(every dataframe operation in the loop body acts row-wise):
`df.assign(**kwargs)` appends the reporter's DRM-percentage column as the
reporter quantity divided by the internal-control quantity; `.fillna(0)`
is then applied to the whole row (every column); finally the reporter's
call column is appended by applying `hiv_result` to the filled row. -/
def hivRowStep (ic : String) (minT maxT : ℚ) (reporterDict : String → String)
    (fluor : String) (row : RRow) : RRow :=
  let pctCol := reporterDict fluor ++ " DRM Percentage"
  let row1 : RRow := fun c =>
    fillna0 (updateCol row pctCol
      (pdiv (row (fluor ++ " Quantity")) (row (ic ++ " Quantity"))) c)
  updateCol row1 (reporterDict fluor ++ " Call")
    (Cell.str (hiv_result (row1 pctCol) (row1 (ic ++ " Quantity")) minT maxT))

/-- The composition of `hivRowStep` over the non-control reporters
(`reporter_list[1:]`, the loop of `hiv_analysis`), on one row. -/
def hivRowFold (ic : String) (minT maxT : ℚ) (reporterDict : String → String)
    (reporterList : List String) (row : RRow) : RRow :=
  (reporterList.drop 1).foldl
    (fun r f => hivRowStep ic minT maxT reporterDict f r) row

/-- One iteration of the `hiv_analysis` loop on the whole dataframe. -/
def hivStep (ic : String) (minT maxT : ℚ) (reporterDict : String → String)
    (df : List RRow) (fluor : String) : List RRow :=
  df.map (hivRowStep ic minT maxT reporterDict fluor)

/-- `DataAnalyzer.hiv_analysis`: iterate the per-reporter step over all
reporters except index 0 (the internal control). -/
def hiv_analysis (ic : String) (minT maxT : ℚ) (reporterDict : String → String)
    (reporterList : List String) (df : List RRow) : List RRow :=
  (reporterList.drop 1).foldl (hivStep ic minT maxT reporterDict) df

/-! ## Helper lemmas -/

theorem csvLineStep_keeps_empty (flag : String) :
    ∀ (lines : List (List String)) (st : Bool × List (List String)),
      (∀ l ∈ lines, isblank l = true) →
      (lines.foldl (csvLineStep flag) st).2 = st.2 := by
  intro lines
  induction lines with
  | nil => intro st _; rfl
  | cons l rest ih =>
      intro st h
      rw [List.foldl_cons]
      rw [ih _ (fun x hx => h x (List.mem_cons_of_mem _ hx))]
      simp [csvLineStep, h l (List.mem_cons_self l rest)]

theorem csvLineStep_stays_off (flag : String) :
    ∀ (lines : List (List String)),
      (∀ l ∈ lines, (l.any fun f => decide (f = flag)) = false) →
      lines.foldl (csvLineStep flag) (false, []) = (false, []) := by
  intro lines
  induction lines with
  | nil => intro _; rfl
  | cons l rest ih =>
      intro h
      rw [List.foldl_cons]
      have hstep : csvLineStep flag (false, []) l = (false, []) := by
        simp [csvLineStep, h l (List.mem_cons_self l rest)]
      rw [hstep, ih (fun x hx => h x (List.mem_cons_of_mem _ hx))]

theorem fillna0_idem (c : Cell) : fillna0 (fillna0 c) = fillna0 c := by
  cases c <;> rfl

theorem foldl_min_of_le : ∀ (xs : List ℚ) (a : ℚ),
    (∀ y ∈ xs, a ≤ y) → xs.foldl min a = a := by
  intro xs
  induction xs with
  | nil => intro a _; rfl
  | cons y ys ih =>
      intro a h
      rw [List.foldl_cons, min_eq_left (h y (List.mem_cons_self y ys))]
      exact ih a (fun z hz => h z (List.mem_cons_of_mem _ hz))

theorem foldl_min_le_init : ∀ (xs : List ℚ) (a : ℚ), xs.foldl min a ≤ a := by
  intro xs
  induction xs with
  | nil => intro a; exact le_refl a
  | cons y ys ih =>
      intro a
      rw [List.foldl_cons]
      exact le_trans (ih (min a y)) (min_le_left a y)

theorem foldl_min_le_mem : ∀ (xs : List ℚ) (a y : ℚ), y ∈ xs → xs.foldl min a ≤ y := by
  intro xs
  induction xs with
  | nil => intro a y h; cases h
  | cons z zs ih =>
      intro a y h
      rw [List.foldl_cons]
      rcases List.mem_cons.mp h with h1 | h2
      · subst h1
        exact le_trans (foldl_min_le_init zs (min a y)) (min_le_right a y)
      · exact ih (min a z) y h2

theorem foldl_min_mem_or : ∀ (xs : List ℚ) (a : ℚ),
    xs.foldl min a = a ∨ xs.foldl min a ∈ xs := by
  intro xs
  induction xs with
  | nil => intro a; exact Or.inl rfl
  | cons y ys ih =>
      intro a
      rw [List.foldl_cons]
      rcases ih (min a y) with h | h
      · rw [h]
        rcases min_choice a y with h1 | h1
        · exact Or.inl h1
        · refine Or.inr ?_
          rw [h1]
          exact List.mem_cons_self y ys
      · exact Or.inr (List.mem_cons_of_mem _ h)

theorem findIdx_congr_mem {α : Type} (p q : α → Bool) :
    ∀ (l : List α), (∀ x ∈ l, p x = q x) → l.findIdx p = l.findIdx q := by
  intro l
  induction l with
  | nil => intro _; rfl
  | cons x xs ih =>
      intro h
      rw [List.findIdx_cons, List.findIdx_cons, h x (List.mem_cons_self x xs),
          ih (fun y hy => h y (List.mem_cons_of_mem _ hy))]

/-! ## Claim C5 -/

/-- C5 counterexample: the claim says a fully blank input, or an input in
which the start flag never appears, yields an empty table rather than
raising an unrelated exception, and that `csv_to_df` fails with
`FormatError` when no data rows remain after the header is removed.  In
fact a fully blank input makes `data_cleaned.pop(0)` raise `IndexError`
(no empty table is produced), and an input whose buffer holds only the
header row returns an empty table without any error. -/
theorem csv_to_df_blank_cex :
    csv_to_df [[""], [""]] "[Results]"
        = Except.error "IndexError: pop from empty list"
    ∧ csv_to_df [["[Results]"], ["h1", "h2"]] "[Results]"
        = Except.ok (["h1", "h2"], []) := by
  constructor
  · have hb : csvBuffered [[""], [""]] "[Results]" = [] := by decide
    rw [csv_to_df, hb]
  · have hb : csvBuffered [["[Results]"], ["h1", "h2"]] "[Results]"
        = [["h1", "h2"]] := by decide
    rw [csv_to_df, hb]

/-- C5 (amended): whenever the `csv_to_df` reading loop buffers no rows —
in particular on a fully blank input, or on an input in which the results
flag never appears as a field — `csv_to_df` raises `IndexError` from
`data_cleaned.pop(0)` instead of yielding an empty table; and when
exactly one row (the header) is buffered, it returns an empty table with
that header and no `FormatError` (no such error exists in the code). -/
theorem csv_to_df_empty_buffer (lines : List (List String)) (flag : String) :
    ((∀ l ∈ lines, isblank l = true) →
        csv_to_df lines flag = Except.error "IndexError: pop from empty list")
    ∧ ((∀ l ∈ lines, (l.any fun f => decide (f = flag)) = false) →
        csv_to_df lines flag = Except.error "IndexError: pop from empty list")
    ∧ (∀ h, csvBuffered lines flag = [h] → csv_to_df lines flag = Except.ok (h, [])) := by
  refine ⟨?_, ?_, ?_⟩
  · intro h
    have hb : csvBuffered lines flag = [] := csvLineStep_keeps_empty flag lines (false, []) h
    rw [csv_to_df, hb]
  · intro h
    have hb : csvBuffered lines flag = [] := by
      rw [csvBuffered, csvLineStep_stays_off flag lines h]
    rw [csv_to_df, hb]
  · intro h hb
    rw [csv_to_df, hb]

/-- C5 witness. -/
theorem csv_to_df_empty_buffer_witness :
    csv_to_df [["a", "b"]] "[Results]"
      = Except.error "IndexError: pop from empty list" :=
  (csv_to_df_empty_buffer [["a", "b"]] "[Results]").2.1 (by decide)

/-! ## Claim C7 -/

/-- C7 counterexample: the claim says a line matching both the stop and
the flag conditions simultaneously is excluded from the captured header.
In fact, because the flag check runs after the stop check, such a line
turns capturing back on and IS captured: here the single line matches
both `'Exp'` (flag) and `'Log'` (stop) and appears in the result. -/
theorem extract_header_flag_stop_cex :
    extract_header [["ExpLog"]] (some "Exp") (some "Log") = [["ExpLog"]]
    ∧ strHas (pyStr ["ExpLog"]) "Exp" = true
    ∧ strHas (pyStr ["ExpLog"]) "Log" = true := by
  refine ⟨by decide, by decide, by decide⟩

/-- C7 (amended): `extract_header` evaluates its checks per line in the
fixed order stop‑off, then flag‑on, then append-if-on.  Consequently a
line matching only the stop token closes capture and is excluded, while a
line matching both the stop and the flag conditions is switched back on
by the later flag check and IS included in the captured header (from any
prior state, and wherever it occurs in the stream). -/
theorem extract_header_order (f s : String) (st : Bool × List (List String))
    (line : List String) :
    (strHas (pyStr line) s = true → strHas (pyStr line) f = true →
        headStep (some f) (some s) st line = (true, st.2 ++ [line]))
    ∧ (strHas (pyStr line) s = true → strHas (pyStr line) f = false →
        headStep (some f) (some s) st line = (false, st.2))
    ∧ (∀ lines : List (List String), line ∈ lines →
        strHas (pyStr line) s = true → strHas (pyStr line) f = true →
        line ∈ extract_header lines (some f) (some s)) := by
  have hstep : ∀ (st' : Bool × List (List String)),
      strHas (pyStr line) s = true → strHas (pyStr line) f = true →
      headStep (some f) (some s) st' line = (true, st'.2 ++ [line]) := by
    intro st' hs hf
    simp [headStep, hs, hf]
  refine ⟨hstep st, ?_, ?_⟩
  · intro hs hf
    simp [headStep, hs, hf]
  · intro lines hmem hs hf
    have hacc : ∀ (st' : Bool × List (List String))
        (l : List String), (headStep (some f) (some s) st' l).2 = st'.2
          ∨ (headStep (some f) (some s) st' l).2 = st'.2 ++ [l] := by
      intro st' l
      simp only [headStep]
      split
      · exact Or.inr rfl
      · split
        · exact Or.inl rfl
        · split
          · exact Or.inr rfl
          · exact Or.inl rfl
    have hmono : ∀ (ls : List (List String)) (st' : Bool × List (List String)),
        line ∈ st'.2 → line ∈ (ls.foldl (headStep (some f) (some s)) st').2 := by
      intro ls
      induction ls with
      | nil => intro st' h; exact h
      | cons l rest ih =>
          intro st' h
          rw [List.foldl_cons]
          apply ih
          rcases hacc st' l with he | he
          · rw [he]; exact h
          · rw [he]; exact List.mem_append_left _ h
    have hgen : ∀ (ls : List (List String)) (st' : Bool × List (List String)),
        line ∈ ls → line ∈ (ls.foldl (headStep (some f) (some s)) st').2 := by
      intro ls
      induction ls with
      | nil => intro st' h; cases h
      | cons l rest ih =>
          intro st' h
          rw [List.foldl_cons]
          rcases List.mem_cons.mp h with h1 | h2
          · subst h1
            apply hmono
            rw [hstep st' hs hf]
            exact List.mem_append_right _ (List.mem_cons_self line [])
          · exact ih _ h2
    exact hgen lines _ hmem

/-! ## Claim C8 -/

/-- C8 counterexample: the claim says a row qualifies for the max-dRn
computation when its baseline-end metric strictly exceeds the threshold.
The source uses `>=`: a non-control reporter row with `Baseline End`
exactly 10 is included by the code but excluded by the claim's reading,
so the two maxima differ on this concrete table. -/
theorem max_dRn_threshold_cex :
    maxDRnEntry [("FAM", "Target")] "FAM"
        [⟨"FAM", 10, 100⟩, ⟨"FAM", 11, 1⟩] = some 100
    ∧ maxDRnSpecStrict "HEX" "FAM"
        [⟨"FAM", 10, 100⟩, ⟨"FAM", 11, 1⟩] = some 1
    ∧ maxDRnEntry [("FAM", "Target")] "FAM"
          [⟨"FAM", 10, 100⟩, ⟨"FAM", 11, 1⟩]
        ≠ maxDRnSpecStrict "HEX" "FAM"
          [⟨"FAM", 10, 100⟩, ⟨"FAM", 11, 1⟩] := by
  refine ⟨by decide, by decide, by decide⟩

/-- C8 (amended): for every configured reporter, the MaxSignalMap entry
equals the maximum delta-Rn over exactly those rows of that reporter's
partial table whose baseline-end quality metric is at least (`>=`, not
strictly greater than) the per-reporter-role threshold — 5 when the
reporter's display name is `'Internal Control'` (which is how the code
identifies the internal-control role; the hypothesis records that the
configuration names exactly the internal-control channel that way), 10
otherwise. -/
theorem max_dRn_at_least_threshold (reporterDict : List (String × String))
    (ic fluor : String) (table : List QsRow)
    (h : dictGet reporterDict fluor = "Internal Control" ↔ fluor = ic) :
    maxDRnEntry reporterDict fluor table = maxDRnSpecAtLeast ic fluor table := by
  rw [maxDRnEntry, maxDRnSpecAtLeast, if_congr h rfl rfl]

/-- C8 witness. -/
theorem max_dRn_at_least_threshold_witness :
    ((dictGet [("HEX", "Internal Control"), ("FAM", "Target")] "FAM"
        = "Internal Control") ↔ ("FAM" = "HEX"))
    ∧ maxDRnEntry [("HEX", "Internal Control"), ("FAM", "Target")] "FAM"
        [⟨"FAM", 10, 100⟩, ⟨"FAM", 11, 1⟩]
      = maxDRnSpecAtLeast "HEX" "FAM" [⟨"FAM", 10, 100⟩, ⟨"FAM", 11, 1⟩] :=
  ⟨by decide,
   max_dRn_at_least_threshold [("HEX", "Internal Control"), ("FAM", "Target")]
     "HEX" "FAM" [⟨"FAM", 10, 100⟩, ⟨"FAM", 11, 1⟩] (by decide)⟩

/-! ## Claim C3 -/

/-- C3: for finite percentage and internal-control quantity, `hiv_result`
computes, in order: `'Negative'` when the percentage is strictly below
the configured minimum threshold or the internal-control quantity is
below 50; otherwise `'Positive'` when the percentage is at least the
configured maximum threshold; otherwise `'Indeterminate'`.  In
particular, with adequate control amplification a percentage exactly
equal to the minimum threshold is not `'Negative'`, and (when the
thresholds are ordered) a percentage exactly equal to the maximum
threshold is `'Positive'`. -/
theorem hiv_result_threshold_semantics (p icq minT maxT : ℚ) :
    (hiv_result (Cell.num p) (Cell.num icq) minT maxT =
      if p < minT ∨ icq < 50 then "Negative"
      else if maxT ≤ p then "Positive" else "Indeterminate")
    ∧ (50 ≤ icq → hiv_result (Cell.num minT) (Cell.num icq) minT maxT ≠ "Negative")
    ∧ (50 ≤ icq → minT ≤ maxT →
        hiv_result (Cell.num maxT) (Cell.num icq) minT maxT = "Positive") := by
  refine ⟨?_, ?_, ?_⟩
  · rw [hiv_result]
    simp only [cellLt, cellGe, Bool.or_eq_true, decide_eq_true_eq]
  · intro h
    rw [hiv_result]
    simp only [cellLt, cellGe, Bool.or_eq_true, decide_eq_true_eq]
    have h1 : ¬(minT < minT ∨ icq < 50) := by
      rintro (hc | hc)
      · exact lt_irrefl minT hc
      · exact absurd hc (not_lt.mpr h)
    rw [if_neg h1]
    by_cases h2 : maxT ≤ minT
    · rw [if_pos h2]
      intro hc
      exact absurd hc (by decide)
    · rw [if_neg h2]
      intro hc
      exact absurd hc (by decide)
  · intro h hord
    rw [hiv_result]
    simp only [cellLt, cellGe, Bool.or_eq_true, decide_eq_true_eq]
    have h1 : ¬(maxT < minT ∨ icq < 50) := by
      rintro (hc | hc)
      · exact absurd hc (not_lt.mpr hord)
      · exact absurd hc (not_lt.mpr h)
    rw [if_neg h1, if_pos (le_refl maxT)]

/-- C3 witness (spec scenario 4 values: thresholds 0.05 and 0.1). -/
theorem hiv_result_threshold_semantics_witness :
    ((50:ℚ) ≤ 1000
      ∧ hiv_result (Cell.num (1/20)) (Cell.num 1000) (1/20) (1/10) ≠ "Negative")
    ∧ ((1:ℚ)/20 ≤ 1/10
      ∧ hiv_result (Cell.num (1/10)) (Cell.num 1000) (1/20) (1/10) = "Positive") :=
  ⟨⟨by norm_num,
    (hiv_result_threshold_semantics (1/20) 1000 (1/20) (1/10)).2.1 (by norm_num)⟩,
   ⟨by norm_num,
    (hiv_result_threshold_semantics (1/10) 1000 (1/20) (1/10)).2.2
      (by norm_num) (by norm_num)⟩⟩

/-! ## Claim C10 -/

/-- C10: `vhf_result` can return a reporter-positive call only when some
qualifying non-control reporter has a Cq strictly below the
internal-control sentinel 98: whenever every reporter that passes the
positivity rule has a Cq of 98 or more (as can happen for any such
reporter when the positivity cutoff is configured above 98), the sentinel
98 at index 0 wins the first-occurrence minimum and the call falls
through to `'Negative'` or `'Invalid Result'`. -/
theorem vhf_result_sentinel_cap (machineType : String) (posCutoff dRnCutoff : ℚ)
    (maxDRn : String → ℚ) (reporterDict : String → String)
    (reporterList : List String) (ic : String) (row : String → ℚ)
    (h : ∀ f ∈ reporterList.drop 1,
        vhfQualifies machineType posCutoff dRnCutoff maxDRn row f = true →
        98 ≤ row (f ++ " CT")) :
    vhf_result machineType posCutoff dRnCutoff maxDRn reporterDict reporterList ic row
        = "Negative"
    ∨ vhf_result machineType posCutoff dRnCutoff maxDRn reporterDict reporterList ic row
        = "Invalid Result" := by
  rw [vhf_result]
  have hall : ∀ y ∈ (reporterList.drop 1).map (fun f =>
      if vhfQualifies machineType posCutoff dRnCutoff maxDRn row f then
        row (f ++ " CT") else 99), (98:ℚ) ≤ y := by
    intro y hy
    rcases List.mem_map.mp hy with ⟨f, hf, rfl⟩
    by_cases hq : vhfQualifies machineType posCutoff dRnCutoff maxDRn row f = true
    · rw [if_pos hq]
      exact h f hf hq
    · rw [if_neg hq]
      norm_num
  have hmin : pyMin 98 ((reporterList.drop 1).map (fun f =>
      if vhfQualifies machineType posCutoff dRnCutoff maxDRn row f then
        row (f ++ " CT") else 99)) = 98 :=
    foldl_min_of_le _ _ hall
  have hidx : pyIndexMin ([98] ++ (reporterList.drop 1).map (fun f =>
      if vhfQualifies machineType posCutoff dRnCutoff maxDRn row f then
        row (f ++ " CT") else 99)) = 0 := by
    rw [List.singleton_append, pyIndexMin, hmin, List.findIdx_cons]
    simp
  rw [hidx]
  simp only [ne_eq, not_true_eq_false, if_false, reduceIte]
  by_cases hic : row (ic ++ " CT") < posCutoff
  · exact Or.inl (by rw [if_pos hic])
  · exact Or.inr (by rw [if_neg hic])

/-- C10 witness: positivity cutoff 100 (above 98); the only qualifying
reporter has Cq exactly 98, the internal control amplified at 20, and the
call is `'Negative'` even though the reporter passed the positivity rule. -/
theorem vhf_result_sentinel_cap_witness :
    (∀ f ∈ (["IC", "FAM"] : List String).drop 1,
        vhfQualifies "Mic" 100 (1/20) (fun _ => 1)
          (fun c => if c = "FAM CT" then 98 else if c = "IC CT" then 20 else 0) f = true →
        (98:ℚ) ≤ (fun c : String =>
          if c = "FAM CT" then (98:ℚ) else if c = "IC CT" then 20 else 0) (f ++ " CT"))
    ∧ (vhf_result "Mic" 100 (1/20) (fun _ => 1) (fun f => f) ["IC", "FAM"] "IC"
          (fun c => if c = "FAM CT" then 98 else if c = "IC CT" then 20 else 0)
          = "Negative"
       ∨ vhf_result "Mic" 100 (1/20) (fun _ => 1) (fun f => f) ["IC", "FAM"] "IC"
          (fun c => if c = "FAM CT" then 98 else if c = "IC CT" then 20 else 0)
          = "Invalid Result") :=
  ⟨by decide,
   vhf_result_sentinel_cap "Mic" 100 (1/20) (fun _ => 1) (fun f => f)
     ["IC", "FAM"] "IC"
     (fun c => if c = "FAM CT" then 98 else if c = "IC CT" then 20 else 0)
     (by decide)⟩

/-! ## Claim C4 -/

/-- C4 counterexample: the claim says that when the internal-control
quantity is exactly 0 the stored percentage value is 0.  With reporter
quantity 40 and internal-control quantity 0 the division yields `+inf`,
which `fillna(0)` does not touch (it only fills NaN), so the stored
percentage is `+inf`, not 0.  (The call is still `'Negative'`.) -/
theorem hiv_div_by_zero_pct_cex :
    ((hiv_analysis "IC" (1/20) (1/10) (fun _ => "MutA") ["IC", "FAM"]
        [fun c => if c = "FAM Quantity" then Cell.num 40
                  else if c = "IC Quantity" then Cell.num 0 else Cell.nan]).getD 0
        (fun _ => Cell.nan)) "MutA DRM Percentage" = Cell.inf
    ∧ Cell.inf ≠ Cell.num 0 := by
  refine ⟨by decide, by decide⟩

/-- C4 (amended): for a well whose internal-control quantity is exactly
0, `hiv_analysis` computes the per-reporter DRM percentage without a
division fault and the resulting call is `'Negative'` regardless of the
reporter's own quantity; but the stored percentage is 0 only when the
reporter quantity is also 0 (the `0/0` NaN is filled by `fillna(0)`):
a nonzero reporter quantity stores `+inf` (or `-inf`), which `fillna(0)`
leaves in place. -/
theorem hiv_analysis_ic_zero_negative (q minT maxT : ℚ)
    (reporterDict : String → String) (ic fluor : String) (row : RRow)
    (h1 : row (ic ++ " Quantity") = Cell.num 0)
    (h2 : row (fluor ++ " Quantity") = Cell.num q)
    (h3 : reporterDict fluor ++ " DRM Percentage" ≠ ic ++ " Quantity")
    (h4 : reporterDict fluor ++ " DRM Percentage" ≠ reporterDict fluor ++ " Call") :
    hiv_analysis ic minT maxT reporterDict [ic, fluor] [row]
        = [hivRowStep ic minT maxT reporterDict fluor row]
    ∧ (hivRowStep ic minT maxT reporterDict fluor row)
        (reporterDict fluor ++ " Call") = Cell.str "Negative"
    ∧ (hivRowStep ic minT maxT reporterDict fluor row)
        (reporterDict fluor ++ " DRM Percentage")
        = (if q = 0 then Cell.num 0
           else if 0 < q then Cell.inf else Cell.neginf) := by
  have hpct : (hivRowStep ic minT maxT reporterDict fluor row)
      (reporterDict fluor ++ " DRM Percentage")
      = fillna0 (pdiv (Cell.num q) (Cell.num 0)) := by
    rw [hivRowStep]
    simp only [updateCol, h1, h2, reduceIte]
    rw [if_neg h4]
  have hcall : (hivRowStep ic minT maxT reporterDict fluor row)
      (reporterDict fluor ++ " Call") = Cell.str
        (hiv_result (fillna0 (pdiv (Cell.num q) (Cell.num 0)))
          (Cell.num 0) minT maxT) := by
    rw [hivRowStep]
    simp only [updateCol, h1, h2, reduceIte]
    rw [if_neg (Ne.symm h3)]
    rfl
  refine ⟨rfl, ?_, ?_⟩
  · rw [hcall]
    have hneg : hiv_result (fillna0 (pdiv (Cell.num q) (Cell.num 0)))
        (Cell.num 0) minT maxT = "Negative" := by
      rw [hiv_result]
      have hlt : cellLt (Cell.num 0) (Cell.num 50) = true := by decide
      rw [hlt, Bool.or_true, if_pos rfl]
    rw [hneg]
  · rw [hpct, pdiv, if_pos rfl]
    by_cases hq : q = 0
    · simp only [if_pos hq]
      rfl
    · simp only [if_neg hq]
      by_cases hq2 : 0 < q
      · simp only [if_pos hq2]
        rfl
      · simp only [if_neg hq2]
        rfl

/-- C4 witness. -/
theorem hiv_analysis_ic_zero_negative_witness :
    ((fun c => if c = "FAM Quantity" then Cell.num 40
               else if c = "IC Quantity" then Cell.num 0 else Cell.nan)
        ("IC" ++ " Quantity") = Cell.num 0)
    ∧ (hivRowStep "IC" (1/20) (1/10) (fun _ => "MutA") "FAM"
        (fun c => if c = "FAM Quantity" then Cell.num 40
                  else if c = "IC Quantity" then Cell.num 0 else Cell.nan))
        ("MutA" ++ " Call") = Cell.str "Negative" :=
  ⟨by decide,
   (hiv_analysis_ic_zero_negative 40 (1/20) (1/10) (fun _ => "MutA") "IC" "FAM"
     (fun c => if c = "FAM Quantity" then Cell.num 40
               else if c = "IC Quantity" then Cell.num 0 else Cell.nan)
     (by decide) (by decide) (by decide) (by decide)).2.1⟩

/-! ## Claim C9 -/

theorem hivStep_foldl_eq_map_fold (ic : String) (minT maxT : ℚ)
    (reporterDict : String → String) :
    ∀ (L : List String) (df : List RRow),
      L.foldl (hivStep ic minT maxT reporterDict) df
        = df.map (fun row =>
            L.foldl (fun r f => hivRowStep ic minT maxT reporterDict f r) row) := by
  intro L
  induction L with
  | nil => intro df; exact (List.map_id df).symm
  | cons f rest ih =>
      intro df
      rw [List.foldl_cons, ih, hivStep, List.map_map]
      rfl

theorem hivRowStep_untouched (ic : String) (minT maxT : ℚ)
    (reporterDict : String → String) (f : String) (row : RRow) (c : String)
    (hp : c ≠ reporterDict f ++ " DRM Percentage")
    (hc : c ≠ reporterDict f ++ " Call") :
    hivRowStep ic minT maxT reporterDict f row c = fillna0 (row c) := by
  rw [hivRowStep]
  simp only [updateCol]
  rw [if_neg hc, if_neg hp]

theorem hivRowFold_untouched (ic : String) (minT maxT : ℚ)
    (reporterDict : String → String) (c : String) :
    ∀ (L : List String) (row : RRow), L ≠ [] →
      (∀ f ∈ L, c ≠ reporterDict f ++ " DRM Percentage"
                ∧ c ≠ reporterDict f ++ " Call") →
      (L.foldl (fun r f => hivRowStep ic minT maxT reporterDict f r) row) c
        = fillna0 (row c) := by
  intro L
  induction L with
  | nil => intro row hne _; exact absurd rfl hne
  | cons f rest ih =>
      intro row _ h
      rw [List.foldl_cons]
      rcases h f (List.mem_cons_self f rest) with ⟨hp, hc⟩
      cases rest with
      | nil =>
          exact hivRowStep_untouched ic minT maxT reporterDict f row c hp hc
      | cons g t =>
          rw [ih _ (by simp) (fun x hx => h x (List.mem_cons_of_mem _ hx)),
              hivRowStep_untouched ic minT maxT reporterDict f row c hp hc,
              fillna0_idem]

/-- C9: during `hiv_analysis`, for each non-control reporter the entire
table is passed through `fillna(0)` after the percentage column is
assigned.  Consequently (whenever there is at least one non-control
reporter) `hiv_analysis` maps each row through the per-reporter fold, and
every column other than the appended percentage and call columns comes
out as `fillna0` of its input value: any missing (NaN) value anywhere in
the table — other reporters' measurements, textual fields such as the
sample name — is overwritten with 0, so those columns are not left
unchanged by classification. -/
theorem hiv_analysis_fillna_frame (ic : String) (minT maxT : ℚ)
    (reporterDict : String → String) (reporterList : List String)
    (df : List RRow) (c : String)
    (hne : reporterList.drop 1 ≠ [])
    (hcols : ∀ f ∈ reporterList.drop 1,
        c ≠ reporterDict f ++ " DRM Percentage" ∧ c ≠ reporterDict f ++ " Call") :
    hiv_analysis ic minT maxT reporterDict reporterList df
        = df.map (hivRowFold ic minT maxT reporterDict reporterList)
    ∧ (∀ row : RRow,
        hivRowFold ic minT maxT reporterDict reporterList row c = fillna0 (row c))
    ∧ (∀ row : RRow, row c = Cell.nan →
        hivRowFold ic minT maxT reporterDict reporterList row c = Cell.num 0) := by
  refine ⟨?_, ?_, ?_⟩
  · rw [hiv_analysis]
    rw [hivStep_foldl_eq_map_fold]
    rfl
  · intro row
    rw [hivRowFold]
    exact hivRowFold_untouched ic minT maxT reporterDict c _ row hne hcols
  · intro row hnan
    rw [hivRowFold]
    rw [hivRowFold_untouched ic minT maxT reporterDict c _ row hne hcols, hnan]
    rfl

/-- C9 witness: with reporters `["IC", "FAM"]` and the sample-name column
holding NaN, classification overwrites it with 0. -/
theorem hiv_analysis_fillna_frame_witness :
    hivRowFold "IC" (1/20) (1/10) (fun f => f) ["IC", "FAM"]
      (fun _ => Cell.nan) "Sample Name" = Cell.num 0 :=
  (hiv_analysis_fillna_frame "IC" (1/20) (1/10) (fun f => f) ["IC", "FAM"]
      [] "Sample Name" (by decide) (by decide)).2.2
    (fun _ => Cell.nan) rfl

/-! ## Claim C2 -/

theorem specCandidates_eq_map (p : String → Bool) (cq : String → ℚ) :
    ∀ fs : List String,
      specCandidates p cq fs = fs.map (fun f => if p f then cq f else 99) := by
  intro fs
  induction fs with
  | nil => rfl
  | cons f t ih => rw [specCandidates, List.map_cons, ih]

theorem pyMin_mem (x : ℚ) (xs : List ℚ) : pyMin x xs ∈ x :: xs := by
  rcases foldl_min_mem_or xs x with h | h
  · rw [pyMin, h]
    exact List.mem_cons_self x xs
  · rw [pyMin]
    exact List.mem_cons_of_mem _ h

theorem pyMin_le (x : ℚ) (xs : List ℚ) : ∀ y ∈ x :: xs, pyMin x xs ≤ y := by
  intro y hy
  rcases List.mem_cons.mp hy with h | h
  · rw [h]
    exact foldl_min_le_init xs x
  · exact foldl_min_le_mem xs x y h

theorem pyIndexMin_eq_specFirstMinIdx (x : ℚ) (xs : List ℚ) :
    pyIndexMin (x :: xs) = specFirstMinIdx (x :: xs) := by
  rw [pyIndexMin, specFirstMinIdx]
  apply findIdx_congr_mem
  intro y hy
  have hiff : (y = pyMin x xs) ↔ (∀ z ∈ x :: xs, y ≤ z) := by
    constructor
    · intro h z hz
      rw [h]
      exact pyMin_le x xs z hz
    · intro h
      exact le_antisymm (h _ (pyMin_mem x xs)) (pyMin_le x xs y hy)
  by_cases h : y = pyMin x xs
  · rw [decide_eq_true h]
    symm
    rw [List.all_eq_true]
    intro z hz
    exact decide_eq_true (hiff.mp h z hz)
  · rw [decide_eq_false h]
    symm
    rw [Bool.eq_false_iff]
    intro hall
    apply h
    apply hiff.mpr
    intro z hz
    exact of_decide_eq_true (List.all_eq_true.mp hall z hz)

theorem ite_ne_zero_swap (k : Nat) (A B : String) :
    (if k ≠ 0 then A else B) = (if k = 0 then B else A) := by
  by_cases hk : k = 0
  · rw [if_pos hk, if_neg (by rw [hk]; exact fun h => h rfl)]
  · rw [if_neg hk, if_pos hk]

/-- C2: `vhf_result` computes exactly the procedure stated by the claim —
candidate list with the sentinel 98 at index 0 for the internal control,
each non-control reporter's Cq appended in configured order exactly when
the reporter is called positive (strict `<` against the positivity cutoff,
with the delta-Rn fraction gate added for the QuantStudio machine types)
and the sentinel 99 otherwise; the index of the minimum taken with ties
broken by first occurrence (so on an exact Cq tie the earlier-configured
reporter's label wins); a nonzero index yielding
`<display name> Positive`, index 0 yielding `Negative` when the internal
control's Cq is strictly below the cutoff and `Invalid Result`
otherwise.  `vhfSpec` transcribes the claim, with the first-occurrence
minimum index expressed independently as the first position whose value
is a lower bound of the whole list. -/
theorem vhf_result_matches_spec (machineType : String) (posCutoff dRnCutoff : ℚ)
    (maxDRn : String → ℚ) (reporterDict : String → String)
    (reporterList : List String) (ic : String) (row : String → ℚ) :
    vhf_result machineType posCutoff dRnCutoff maxDRn reporterDict reporterList ic row
      = vhfSpec machineType posCutoff dRnCutoff maxDRn reporterDict reporterList ic row := by
  unfold vhf_result vhfSpec
  simp only [vhfQualifies, List.singleton_append, specCandidates_eq_map]
  rw [pyIndexMin_eq_specFirstMinIdx]
  rw [ite_ne_zero_swap]

/-! ## Claim C6 -/

theorem insertSorted_perm (le : String → String → Bool) :
    ∀ (x : String) (l : List String), (insertSorted le x l).Perm (x :: l) := by
  intro x l
  induction l with
  | nil => exact List.Perm.refl _
  | cons y ys ih =>
      rw [insertSorted]
      split
      · exact List.Perm.refl _
      · exact List.Perm.trans (List.Perm.cons y ih) (List.Perm.swap x y ys)

theorem pySorted_perm (le : String → String → Bool) :
    ∀ l : List String, (pySorted le l).Perm l := by
  intro l
  induction l with
  | nil => exact List.Perm.refl _
  | cons x t ih =>
      have : pySorted le (x :: t) = insertSorted le x (pySorted le t) := rfl
      rw [this]
      exact List.Perm.trans (insertSorted_perm le x (pySorted le t))
        (List.Perm.cons x ih)

theorem mem_rgqUsed (reporters : List (String × String)) (fps : List String)
    (p : String) :
    p ∈ rgqUsed reporters fps
      ↔ p ∈ fps ∧ ∃ r ∈ reporters, rgqMatches r p = true := by
  rw [rgqUsed]
  simp only [List.mem_flatMap, List.mem_map, List.mem_filter]
  constructor
  · rintro ⟨q, hq, r, ⟨hr, hm⟩, rfl⟩
    exact ⟨hq, r, hr, hm⟩
  · rintro ⟨hp, r, hr, hm⟩
    exact ⟨p, hp, r, ⟨hr, hm⟩, rfl⟩

/-- C6: in `parse_rgq`, whenever the set of selected files differs by
identity from the set of files matched to some configured reporter by
filename-token containment — even when the file count equals the number
of configured reporters — the final check
`sorted(results_filepaths) != sorted(used_filepaths)` fires, aborting the
run fatally instead of producing a silently incomplete merge. -/
theorem rgq_file_identity_check_fatal (reporters : List (String × String))
    (filepaths : List String)
    (_hcount : filepaths.length = reporters.length)
    (hset : filepaths.toFinset
        ≠ (filepaths.filter (fun p => reporters.any (fun r => rgqMatches r p))).toFinset) :
    rgqFileCheckFails reporters filepaths = true := by
  rw [rgqFileCheckFails, decide_eq_true_eq]
  have hsub : (filepaths.filter
      (fun p => reporters.any (fun r => rgqMatches r p))).toFinset
        ⊆ filepaths.toFinset := by
    intro a ha
    rw [List.mem_toFinset] at ha
    rw [List.mem_toFinset]
    exact List.mem_of_mem_filter ha
  have hss : (filepaths.filter
      (fun p => reporters.any (fun r => rgqMatches r p))).toFinset
        ⊂ filepaths.toFinset :=
    lt_of_le_of_ne hsub (fun he => hset he.symm)
  obtain ⟨x, hxt, hxs⟩ := (Finset.ssubset_iff_of_subset hsub).mp hss
  have hxfps : x ∈ filepaths := List.mem_toFinset.mp hxt
  have hxnomatch : ∀ r ∈ reporters, ¬rgqMatches r x = true := by
    intro r hr hm
    apply hxs
    rw [List.mem_toFinset, List.mem_filter]
    exact ⟨hxfps, List.any_eq_true.mpr ⟨r, hr, hm⟩⟩
  intro heq
  have hperm : filepaths.Perm (rgqUsed reporters filepaths) :=
    List.Perm.trans (pySorted_perm strLeB filepaths).symm
      (heq ▸ pySorted_perm strLeB (rgqUsed reporters filepaths))
  have hx : x ∈ rgqUsed reporters filepaths := hperm.mem_iff.mp hxfps
  rw [mem_rgqUsed] at hx
  obtain ⟨-, r, hr, hm⟩ := hx
  exact hxnomatch r hr hm

/-- C6 witness: two files for two reporters (count matches), but the
second filename matches no configured reporter token; the check fires. -/
theorem rgq_file_identity_check_fatal_witness :
    ((["runFAM.csv", "runOTHER.csv"] : List String).length
        = ([("FAM", "Target"), ("HEX", "Internal Control")]
            : List (String × String)).length)
    ∧ rgqFileCheckFails [("FAM", "Target"), ("HEX", "Internal Control")]
        ["runFAM.csv", "runOTHER.csv"] = true :=
  ⟨by decide,
   rgq_file_identity_check_fatal [("FAM", "Target"), ("HEX", "Internal Control")]
     ["runFAM.csv", "runOTHER.csv"] (by decide) (by decide)⟩

/-! ## Claim C1 -/

theorem aGet_append_no_well (rl rr : ARow) :
    aGet (rl ++ rr.filter (fun p => decide (p.1 ≠ "Well"))) "Well"
      = aGet rl "Well" := by
  rw [aGet, aGet, List.find?_append]
  cases hfl : List.find? (fun p : String × Cell => decide (p.1 = "Well")) rl with
  | some v => rfl
  | none =>
      have hfr : List.find? (fun p : String × Cell => decide (p.1 = "Well"))
          (rr.filter (fun p => decide (p.1 ≠ "Well"))) = none := by
        rw [List.find?_eq_none]
        intro p hp
        have := List.of_mem_filter hp
        simp only [decide_eq_true_eq] at this ⊢
        exact this
      rw [hfr]
      rfl

theorem mem_wellKeys_innerJoin (a b : ATable) (w : Option Cell) :
    w ∈ wellKeys (innerJoin a b) ↔ w ∈ wellKeys a ∧ w ∈ wellKeys b := by
  simp only [wellKeys, innerJoin, List.mem_map, List.mem_flatMap,
    List.mem_filter, decide_eq_true_eq]
  constructor
  · rintro ⟨r, ⟨rl, hrl, hr⟩, rfl⟩
    rcases hr with ⟨rr, ⟨hrrb, hkey⟩, rfl⟩
    rw [aGet_append_no_well]
    exact ⟨⟨rl, hrl, rfl⟩, ⟨rr, hrrb, hkey⟩⟩
  · rintro ⟨⟨rl, hrl, hkl⟩, ⟨rr, hrrb, hkr⟩⟩
    refine ⟨rl ++ rr.filter (fun p => decide (p.1 ≠ "Well")),
      ⟨rl, hrl, rr, ⟨hrrb, ?_⟩, rfl⟩, ?_⟩
    · rw [hkr, hkl]
    · rw [aGet_append_no_well]
      exact hkl

theorem projRow_well (cs : List String) (row prow : ARow)
    (h : projRow ("Well" :: cs) row = some prow) :
    aGet prow "Well" = aGet row "Well" := by
  rw [projRow, List.mapM_cons] at h
  cases hw : aGet row "Well" with
  | none => rw [hw] at h; cases h
  | some v =>
      rw [hw] at h
      simp only [Option.map_some, Option.bind_eq_bind, Option.some_bind] at h
      cases hrest : List.mapM (fun c => (aGet row c).map (fun v => (c, v))) cs with
      | none => rw [hrest] at h; cases h
      | some tail =>
          rw [hrest] at h
          simp only [Option.map_some, Option.some_bind] at h
          cases h
          rw [aGet]
          simp

theorem projTable_wellKeys (cs : List String) :
    ∀ (tbl proj : ATable), projTable ("Well" :: cs) tbl = some proj →
      wellKeys proj = wellKeys tbl := by
  intro tbl
  induction tbl with
  | nil =>
      intro proj h
      rw [projTable] at h
      cases h
      rfl
  | cons row rest ih =>
      intro proj h
      rw [projTable, List.mapM_cons] at h
      cases hr : projRow ("Well" :: cs) row with
      | none => rw [hr] at h; cases h
      | some prow =>
          rw [hr] at h
          simp only [Option.bind_eq_bind, Option.some_bind] at h
          cases hrest : List.mapM (projRow ("Well" :: cs)) rest with
          | none => rw [hrest] at h; cases h
          | some ptail =>
              rw [hrest] at h
              simp only [Option.map_some, Option.some_bind] at h
              cases h
              rw [wellKeys, List.map_cons, wellKeys, List.map_cons]
              rw [projRow_well cs row prow hr]
              have := ih ptail hrest
              rw [wellKeys, wellKeys] at this
              rw [this]

theorem summarizeCols_head (machineType division fluor : String) (b : Bool) :
    ∃ cs, summarizeCols machineType division fluor b = "Well" :: cs := by
  rw [summarizeCols]
  by_cases h1 : strHas machineType "QuantStudio" = true
  · by_cases h2 : division = "hiv"
    · rw [if_pos h1, if_pos h2]
      cases b
      · exact ⟨_, rfl⟩
      · exact ⟨_, rfl⟩
    · rw [if_pos h1, if_neg h2]
      cases b
      · exact ⟨_, rfl⟩
      · exact ⟨_, rfl⟩
  · by_cases h2 : division = "hiv"
    · rw [if_neg h1, if_pos h2]
      cases b
      · exact ⟨_, rfl⟩
      · exact ⟨_, rfl⟩
    · rw [if_neg h1, if_neg h2]
      cases b
      · exact ⟨_, rfl⟩
      · exact ⟨_, rfl⟩

theorem summarizeGo_ok_wellKeys (machineType division : String) :
    ∀ (rest : List (String × ATable)) (acc t : ATable),
      summarizeGo machineType division rest (some acc) = Except.ok t →
      ∀ w, w ∈ wellKeys t
        ↔ (w ∈ wellKeys acc ∧ ∀ p ∈ rest, w ∈ wellKeys p.2) := by
  intro rest
  induction rest with
  | nil =>
      intro acc t h w
      rw [summarizeGo] at h
      cases h
      simp
  | cons ft rest ih =>
      intro acc t h w
      rcases ft with ⟨fluor, tbl⟩
      rw [summarizeGo] at h
      cases hp : projTable (summarizeCols machineType division fluor
          (some acc).isNone) tbl with
      | none => rw [hp] at h; cases h
      | some proj =>
          rw [hp] at h
          have hrec := ih (innerJoin acc proj) t h w
          rcases summarizeCols_head machineType division fluor
            (some acc).isNone with ⟨cs, hcols⟩
          rw [hcols] at hp
          have hproj : wellKeys proj = wellKeys tbl :=
            projTable_wellKeys cs tbl proj hp
          rw [hrec, mem_wellKeys_innerJoin, hproj, List.forall_mem_cons]
          constructor
          · rintro ⟨⟨ha, hb⟩, hc⟩
            exact ⟨ha, hb, hc⟩
          · rintro ⟨ha, hb, hc⟩
            exact ⟨⟨ha, hb⟩, hc⟩

/-- C1 (amended): `DataImporter.summarize` raises no error on a well-set
mismatch: the per-reporter partial tables are combined with inner joins
on `Well`, so wells present in one partial table but absent from another
are silently dropped, and after a successful merge the merged table's
well set is the intersection of the partial tables' well sets (a well is
in the merged table exactly when it is in every partial table) — not, as
the claim states, the well set of every partial table.  The progressive
Rotor-Gene merge uses the same inner join. -/
theorem summarize_wellKeys_intersection (machineType division : String)
    (dfDict : List (String × ATable)) (t : ATable)
    (h : summarize machineType division dfDict = Except.ok t) :
    ∀ w, w ∈ wellKeys t ↔ ∀ p ∈ dfDict, w ∈ wellKeys p.2 := by
  intro w
  cases dfDict with
  | nil => rw [summarize, summarizeGo] at h; cases h
  | cons ft rest =>
      rcases ft with ⟨fluor, tbl⟩
      rw [summarize, summarizeGo] at h
      cases hp : projTable (summarizeCols machineType division fluor
          (none : Option ATable).isNone) tbl with
      | none => rw [hp] at h; cases h
      | some proj =>
          rw [hp] at h
          have hrec := summarizeGo_ok_wellKeys machineType division rest proj t h w
          rcases summarizeCols_head machineType division fluor
            (none : Option ATable).isNone with ⟨cs, hcols⟩
          rw [hcols] at hp
          have hproj : wellKeys proj = wellKeys tbl :=
            projTable_wellKeys cs tbl proj hp
          rw [hrec, hproj, List.forall_mem_cons]

/-- First partial table of the concrete merge example: wells 1 and 2. -/
def cexTableA : ATable :=
  [[("Well", Cell.num 1), ("Sample Name", Cell.str "s1"), ("FAM CT", Cell.num 20)],
   [("Well", Cell.num 2), ("Sample Name", Cell.str "s2"), ("FAM CT", Cell.num 21)]]

/-- Second partial table of the counterexample merge: well 1 only (well 2
is missing from this reporter's table). -/
def cexTableB : ATable :=
  [[("Well", Cell.num 1), ("HEX CT", Cell.num 22)]]

/-- Second partial table of the witness merge: wells 1 and 2. -/
def cexTableB2 : ATable :=
  [[("Well", Cell.num 1), ("HEX CT", Cell.num 22)],
   [("Well", Cell.num 2), ("HEX CT", Cell.num 23)]]

/-- C1 counterexample: the claim says merging fails with a fatal
ingestion error whenever a well key present in one partial table is
absent from another, and that no well is ever silently dropped.  Here
well 2 is present in the first reporter's table and absent from the
second's, yet `summarize` succeeds (no error) and silently drops well 2:
the merged table's well set is {1}, not the first table's {1, 2}. -/
theorem summarize_silent_drop_cex :
    summarize "Mic" "vhf" [("FAM", cexTableA), ("HEX", cexTableB)]
      = Except.ok
        [[("Well", Cell.num 1), ("Sample Name", Cell.str "s1"),
          ("FAM CT", Cell.num 20), ("HEX CT", Cell.num 22)]]
    ∧ some (Cell.num 2) ∈ wellKeys cexTableA
    ∧ some (Cell.num 2) ∉ wellKeys
        [[("Well", Cell.num 1), ("Sample Name", Cell.str "s1"),
          ("FAM CT", Cell.num 20), ("HEX CT", Cell.num 22)]] := by
  refine ⟨by rfl, by decide, by decide⟩

/-- C1 witness. -/
theorem summarize_wellKeys_intersection_witness :
    some (Cell.num 1) ∈ wellKeys
        [[("Well", Cell.num 1), ("Sample Name", Cell.str "s1"),
          ("FAM CT", Cell.num 20), ("HEX CT", Cell.num 22)],
         [("Well", Cell.num 2), ("Sample Name", Cell.str "s2"),
          ("FAM CT", Cell.num 21), ("HEX CT", Cell.num 23)]]
      ↔ ∀ p ∈ [("FAM", cexTableA), ("HEX", cexTableB2)],
          some (Cell.num 1) ∈ wellKeys p.2 :=
  summarize_wellKeys_intersection "Mic" "vhf"
    [("FAM", cexTableA), ("HEX", cexTableB2)]
    [[("Well", Cell.num 1), ("Sample Name", Cell.str "s1"),
      ("FAM CT", Cell.num 20), ("HEX CT", Cell.num 22)],
     [("Well", Cell.num 2), ("Sample Name", Cell.str "s2"),
      ("FAM CT", Cell.num 21), ("HEX CT", Cell.num 23)]]
    (by rfl) (some (Cell.num 1))

/-- C7 witness: a concrete line matching both the flag and the stop token
is switched on and appended. -/
theorem extract_header_order_witness :
    headStep (some "Exp") (some "Log") (false, []) ["ExpLog"]
      = (true, ([] : List (List String)) ++ [["ExpLog"]]) :=
  (extract_header_order "Exp" "Log" (false, []) ["ExpLog"]).1 (by decide) (by decide)
